/-
Verification of the multi-pass research orchestrator
(pipeline.py, query_search.py, query_classification_decomposition.py,
database.py) as a shallow embedding.

The relational store (database.py) is modelled as explicit lists of rows,
in insertion order (rowid / created_at order).  External capabilities
(completion LLM, web search, semantic memory) are modelled as oracle
functions supplied as parameters; a raised exception in a fallible call
is modelled by the oracle returning `none`.
-/
import Mathlib

namespace Rocket

/-! ## Data model (database.py schema) -/

/-- A row of `research_runs`. `created_at` ordering is the list order. -/
structure RunRow where
  id : String
  original_query : String
  classification : String
  primary_intent : String
  relationship : String
  difficulty_level : String
  final_answer : Option String
deriving Repr, DecidableEq

/-- A row of `sub_questions`. `id` is the AUTOINCREMENT key (≥ 1). -/
structure SubQRow where
  id : Nat
  research_run_id : String
  sub_question : String
  position : Nat
deriving Repr, DecidableEq

/-- A row of `search_results`. -/
structure SearchResultRow where
  sub_question_id : Nat
  search_query : String
  search_type : String
  url : Option String
  title : Option String
  snippet : Option String
deriving Repr, DecidableEq

/-- A row of `sub_question_summaries`; the JSON list is kept decoded. -/
structure SummaryRow where
  sub_question_id : Nat
  summary_json : List String
deriving Repr, DecidableEq

/-- A row of `judge_evaluations` (fields the core writes). -/
structure JudgeEvalRow where
  research_run_id : String
  overall_status : String
  confidence_score : ℚ
  recommended_follow_up : List String
deriving Repr, DecidableEq

/-- The sqlite database state.  Each list is in rowid (insertion) order;
`nextSubQId` models the AUTOINCREMENT counter of `sub_questions`. -/
structure DB where
  research_runs : List RunRow
  sub_questions : List SubQRow
  search_results : List SearchResultRow
  summaries : List SummaryRow
  judge_evals : List JudgeEvalRow
  nextSubQId : Nat
deriving Repr, DecidableEq

/-- The freshly initialised database (after `init_db`). -/
def emptyDB : DB := ⟨[], [], [], [], [], 1⟩

/-! ## Evidence gathering (query_search.py) -/

/-- The assembled evidence for one question: the value shape
`{"urls": [...], "snippets": "..."}` that both the cache branch and
`tavily_search` produce. -/
structure Evidence where
  urls : List String
  snippets : String
deriving Repr, DecidableEq

/-- One entry of the `analyzed` mapping of `analyze_sub_questions`:
`{"summary": [...], "urls": [...]}`. -/
structure Analyzed where
  summary : List String
  urls : List String
deriving Repr, DecidableEq

/-- Order-preserving first-occurrence deduplication, the semantics of
`list(dict.fromkeys(...))` in `run_pipeline`. -/
def dedupKeepFirstAux (seen : List String) : List String → List String
  | [] => []
  | x :: xs =>
    if x ∈ seen then dedupKeepFirstAux seen xs
    else x :: dedupKeepFirstAux (x :: seen) xs

/-- `list(dict.fromkeys(l))`. -/
def dedupKeepFirst (l : List String) : List String :=
  dedupKeepFirstAux [] l

/-- The `sub_q_map` lookup of `run_pipeline`: the dict comprehension over
`SELECT id, sub_question FROM sub_questions WHERE research_run_id = ?`
lets later rows overwrite earlier ones, so `.get(question)` yields the id
of the last row (in rowid order) of the run with matching text. -/
def subQMapLookup (db : DB) (runId : String) (q : String) : Option Nat :=
  (((db.sub_questions.filter (fun r => r.research_run_id == runId)).reverse).find?
    (fun r => r.sub_question == q)).map (fun r => r.id)

/-- `SELECT url, snippet FROM search_results WHERE sub_question_id = ?
AND search_type = 'depth'`. -/
def depthRows (db : DB) (sid : Nat) : List SearchResultRow :=
  db.search_results.filter (fun r => r.sub_question_id == sid && r.search_type == "depth")

/-- Assembly of cached evidence in `run_pipeline`: collect the truthy
urls into a set (modelled as first-seen dedup) and join the truthy
snippets with a newline. -/
def assembleEvidence (rows : List SearchResultRow) : Evidence :=
  { urls := dedupKeepFirst (((rows.filterMap (fun r => r.url)).filter (fun u => u != ""))),
    snippets := String.intercalate "\n"
      ((rows.filterMap (fun r => r.snippet)).filter (fun s => s != "")) }

/-- Result of the cache-check loop of `run_pipeline`: the
`cached_search_results` association list and the `missing_questions`
list, each in input order. -/
structure CacheScan where
  cached : List (String × Evidence)
  missing : List String
deriving Repr, DecidableEq

/-- The cache-check loop of `run_pipeline`: a question with no
sub-question id goes to `missing_questions`; one with stored depth rows
becomes a cache hit; one with an id but no rows goes to
`missing_questions`. -/
def cacheScan (db : DB) (runId : String) : List String → CacheScan
  | [] => ⟨[], []⟩
  | q :: qs =>
    let rest := cacheScan db runId qs
    match subQMapLookup db runId q with
    | none => ⟨rest.cached, q :: rest.missing⟩
    | some sid =>
      let rows := depthRows db sid
      if rows.isEmpty then ⟨rest.cached, q :: rest.missing⟩
      else ⟨(q, assembleEvidence rows) :: rest.cached, rest.missing⟩

/-- `filter(None, data["snippets"].split("\n"))`. -/
def snippetBlocks (s : String) : List String :=
  (s.splitOn "\n").filter (fun b => b != "")

/-- The `search_results` rows inserted for one fresh question in
`run_pipeline`: nothing when `sub_q_map` has no id for it; otherwise one
snippet row per nonempty block, then one url row per url. -/
def freshRows (lookupDb : DB) (runId : String) (q : String) (data : Evidence) :
    List SearchResultRow :=
  match subQMapLookup lookupDb runId q with
  | none => []
  | some sid =>
    (snippetBlocks data.snippets).map
      (fun b => ⟨sid, q, "depth", none, none, some b⟩)
    ++ data.urls.map (fun u => ⟨sid, q, "depth", some u, none, none⟩)

/-- The persistence loop of `run_pipeline` over `fresh_results.items()`.
`lookupDb` is the state the `sub_q_map` was read from (the state at
entry). -/
def persistFresh (lookupDb : DB) (runId : String) (fresh : List (String × Evidence))
    (db : DB) : DB :=
  { db with search_results :=
      db.search_results ++ (fresh.map (fun qd => freshRows lookupDb runId qd.1 qd.2)).flatten }

/-- `SELECT id FROM sub_questions WHERE sub_question = ?` + `fetchone`:
the first row (rowid order) with matching text, over ALL runs — there is
no run-id filter in `analyze_sub_questions`. -/
def findSubQByText (db : DB) (q : String) : Option SubQRow :=
  db.sub_questions.find? (fun r => r.sub_question == q)

/-- `SELECT summary_json FROM sub_question_summaries WHERE
sub_question_id = ?` + `fetchone`. -/
def findSummary (db : DB) (sid : Nat) : Option SummaryRow :=
  db.summaries.find? (fun r => r.sub_question_id == sid)

/-- `analyze_sub_questions`: for each question of the merged search
results, resolve a sub-question id by text (skip when absent), return a
cached summary when one exists, otherwise invoke the analyzer capability
(`summO question snippets`) and insert the summary row.  Returns the
updated state and the `analyzed` association list. -/
def analyzeSubQuestions (summO : String → String → List String) :
    DB → List (String × Evidence) → DB × List (String × Analyzed)
  | db, [] => (db, [])
  | db, (q, data) :: rest =>
    match findSubQByText db q with
    | none => analyzeSubQuestions summO db rest
    | some row =>
      match findSummary db row.id with
      | some s =>
        let r := analyzeSubQuestions summO db rest
        (r.1, (q, ⟨s.summary_json, data.urls⟩) :: r.2)
      | none =>
        let summary := summO q data.snippets
        let db1 := { db with summaries := db.summaries ++ [⟨row.id, summary⟩] }
        let r := analyzeSubQuestions summO db1 rest
        (r.1, (q, ⟨summary, data.urls⟩) :: r.2)

/-- The `summaries` block of `generate_final_answer`: per question the
text, a newline, and its indented bullets; blocks joined by blank
lines. -/
def summariesBlock (analyzed : List (String × Analyzed)) : String :=
  String.intercalate "\n\n" (analyzed.map (fun qa =>
    qa.1 ++ "\n" ++ String.intercalate "\n" (qa.2.summary.map (fun b => "  - " ++ b))))

/-- What `run_pipeline` computes: its return value (the final answer),
the resulting database state, the list of queries submitted to the
search capability (`missing_questions`, the argument of
`tavily_search`), the `analyzed` mapping and the merged
`search_results` mapping. -/
structure PipeResult where
  answer : String
  db : DB
  searchCalls : List String
  analyzed : List (String × Analyzed)
  results : List (String × Evidence)
deriving Repr, DecidableEq

/-- `run_pipeline` of query_search.py.  `searchO` is the search
capability (per-question assembled evidence), `summO` the analyzer
completion, `finalO` the synthesis completion applied to the original
query and the summaries block. -/
def run_pipeline (db : DB) (originalQuery : String)
    (baseSubQuestions followUpQuestions : List String) (runId : String)
    (searchO : String → Evidence) (summO : String → String → List String)
    (finalO : String → String → String) : PipeResult :=
  let allQs := dedupKeepFirst (baseSubQuestions ++ followUpQuestions)
  let scan := cacheScan db runId allQs
  let fresh := scan.missing.map (fun q => (q, searchO q))
  let results := scan.cached ++ fresh
  let db1 := persistFresh db runId fresh db
  let ar := analyzeSubQuestions summO db1 results
  let answer := finalO originalQuery (summariesBlock ar.2)
  ⟨answer, ar.1, scan.missing, ar.2, results⟩

/-! ## Decomposition resolver (query_classification_decomposition.py) -/

/-- One raw element of the LLM decomposition's `sub_questions` list:
either a plain string or a dict of tag/question pairs. -/
inductive RawSubQ where
  | plain (s : String)
  | tagged (kvs : List (String × String))
deriving Repr, DecidableEq

/-- `normalize_sub_questions`: a plain entry passes through, a dict
entry yields one `[TAG] text` line per key/value pair. -/
def normalize_sub_questions (l : List RawSubQ) : List String :=
  (l.map (fun q => match q with
    | .plain s => [s]
    | .tagged kvs => kvs.map (fun kv => "[" ++ kv.1.toUpper ++ "] " ++ kv.2))).flatten

/-- The parsed decomposition-chain output (`sub_questions` still raw). -/
structure RawDecomp where
  sub_questions : List RawSubQ
  primary_intent : String
  relationship : String
  difficulty_level : String
deriving Repr, DecidableEq

/-- A decomposition after normalization (or the fallback). -/
structure NormDecomp where
  sub_questions : List String
  primary_intent : String
  relationship : String
  difficulty_level : String
deriving Repr, DecidableEq

/-- The hard-coded fallback decomposition used when the decomposition
phase raises. -/
def fallbackDecomp (query : String) : NormDecomp :=
  ⟨[query], "Answer the query directly", "parallel", "moderate"⟩

/-- `SELECT ... FROM research_runs WHERE original_query = ? ORDER BY
created_at DESC LIMIT 1`: the most recently inserted matching run. -/
def lastRunMatching (db : DB) (query : String) : Option RunRow :=
  (db.research_runs.reverse).find? (fun r => r.original_query == query)

/-- Stable-enough insertion by position (models `ORDER BY position`). -/
def insertByPos (x : SubQRow) : List SubQRow → List SubQRow
  | [] => [x]
  | y :: ys => if x.position ≤ y.position then x :: y :: ys else y :: insertByPos x ys

/-- Sort sub-question rows by `position` (models `ORDER BY position`). -/
def sortByPos : List SubQRow → List SubQRow
  | [] => []
  | x :: xs => insertByPos x (sortByPos xs)

/-- `SELECT sub_question FROM sub_questions WHERE research_run_id = ?
ORDER BY position`. -/
def runSubQuestionsOrdered (db : DB) (rid : String) : List String :=
  (sortByPos (db.sub_questions.filter (fun r => r.research_run_id == rid))).map
    (fun r => r.sub_question)

/-- The `sub_questions` rows inserted by the resolver: AUTOINCREMENT
ids from `startId`, positions `enumerate(..., start=1)`. -/
def mkSubQRows (startId : Nat) (rid : String) (pos : Nat) : List String → List SubQRow
  | [] => []
  | q :: qs => ⟨startId, rid, q, pos⟩ :: mkSubQRows (startId + 1) rid (pos + 1) qs

/-- What `research_decomposition_pipeline` returns, plus the resulting
state and the number of completion-capability (classification or
decomposition chain) invocations it performed. -/
structure ResolveResult where
  run_id : String
  sub_questions : List String
  classification : String
  primary_intent : String
  relationship : String
  difficulty_level : String
  db : DB
  completionCalls : Nat
deriving Repr, DecidableEq

/-- The prompt input of the classification chain on a cache miss. -/
def contextualQuery (query ctx : String) : String :=
  query ++ "\n\nPREVIOUS CONTEXT:\n" ++ ctx

/-- The classification phase of the cache-miss path: when the memory
retrieval raised, the try-block fails before invoking the chain (zero
invocations); otherwise one chain invocation whose failure falls back
to `"ambiguous"`.  Second component counts chain invocations. -/
def resolverClassify (query : String) (memO : Option String)
    (classifyO : String → Option String) : String × Nat :=
  match memO with
  | none => ("ambiguous", 0)
  | some ctx =>
    match classifyO (contextualQuery query ctx) with
    | some c => (c, 1)
    | none => ("ambiguous", 1)

/-- The decomposition phase of the cache-miss path: when the memory
retrieval raised, the `memory_context` NameError aborts the try-block
before invoking the chain; otherwise one chain invocation whose failure
falls back to `fallbackDecomp`. -/
def resolverDecompose (query queryType : String) (memO : Option String)
    (decompO : String → String → Option RawDecomp) : NormDecomp × Nat :=
  match memO with
  | none => (fallbackDecomp query, 0)
  | some ctx =>
    match decompO (contextualQuery query ctx) queryType with
    | some d => (⟨normalize_sub_questions d.sub_questions, d.primary_intent,
        d.relationship, d.difficulty_level⟩, 1)
    | none => (fallbackDecomp query, 1)

/-- The cache-miss path of `research_decomposition_pipeline`: classify,
decompose, insert the run row and its sub-question rows. -/
def resolverMiss (db : DB) (query : String) (freshRunId : String)
    (memO : Option String)
    (classifyO : String → Option String)
    (decompO : String → String → Option RawDecomp) : ResolveResult :=
  let cls := resolverClassify query memO classifyO
  let queryType := cls.1
  let dec := resolverDecompose query queryType memO decompO
  let d := dec.1
  let runRow : RunRow := ⟨freshRunId, query, queryType, d.primary_intent,
    d.relationship, d.difficulty_level, none⟩
  let newRows := mkSubQRows db.nextSubQId freshRunId 1 d.sub_questions
  let db' : DB :=
    { db with
      research_runs := db.research_runs ++ [runRow],
      sub_questions := db.sub_questions ++ newRows,
      nextSubQId := db.nextSubQId + d.sub_questions.length }
  ⟨freshRunId, d.sub_questions, queryType, d.primary_intent, d.relationship,
    d.difficulty_level, db', cls.2 + dec.2⟩

/-- `research_decomposition_pipeline` of
query_classification_decomposition.py.  `freshRunId` models
`uuid.uuid4()`.  `memO` is `retrieve_context` (`none` = it raised);
`classifyO`/`decompO` are the chain invocations, `none` modelling a
raised exception (parse error, missing key, network failure). -/
def research_decomposition_pipeline (db : DB) (query : String) (freshRunId : String)
    (memO : Option String)
    (classifyO : String → Option String)
    (decompO : String → String → Option RawDecomp) : ResolveResult :=
  match lastRunMatching db query with
  | some cached =>
    ⟨cached.id, runSubQuestionsOrdered db cached.id, cached.classification,
      cached.primary_intent, cached.relationship, cached.difficulty_level, db, 0⟩
  | none => resolverMiss db query freshRunId memO classifyO decompO

/-! ## Judge wrapper (llm_as_a_judge.py) -/

/-- The parsed judge-chain output (fields the orchestrator reads). -/
structure JudgeResult where
  overall_status : String
  confidence_score : ℚ
  recommended_follow_up : List String
deriving Repr, DecidableEq

/-- The unconditional insert of `run_judge` into `judge_evaluations`. -/
def insertJudgeEval (db : DB) (runId : String) (jr : JudgeResult) : DB :=
  { db with judge_evals := db.judge_evals ++
      [⟨runId, jr.overall_status, jr.confidence_score, jr.recommended_follow_up⟩] }

/-! ## Multi-pass orchestrator (pipeline.py, ResearchPipeline.run) -/

def MAX_PASSES : Nat := 3

def CONFIDENCE_THRESHOLD : ℚ := mkRat 85 100

/-- Lines 78–84 of pipeline.py: keep the recommendations not already in
the follow-up list (membership tested against the list as it was before
this merge) and extend. -/
def mergeFollowUps (current recommended : List String) : List String :=
  current ++ recommended.filter (fun q => decide (q ∉ current))

/-- The question sets a pass researches: pass 0 the base sub-questions
only, every later pass the accumulated follow-ups only. -/
def passQuestions (baseQs followUps : List String) (passIdx : Nat) :
    List String × List String :=
  if passIdx = 0 then (baseQs, []) else ([], followUps)

/-- The per-pass outside capabilities, indexed by pass number. -/
structure Oracles where
  search : Nat → String → Evidence
  summ : Nat → String → String → List String
  final : Nat → String → String → String
  judge : Nat → JudgeResult

/-- The loop state of `ResearchPipeline.run`, plus a pass counter. -/
structure LoopState where
  db : DB
  followUps : List String
  finalAnswer : Option String
  lastJudge : Option JudgeResult
  passes : Nat
deriving Repr

/-- The main loop of `ResearchPipeline.run`: research the pass's
question set, judge, break once the confidence threshold is met,
otherwise merge the recommended follow-ups and continue.  `fuel` is the
number of remaining loop iterations (`MAX_PASSES - passIdx`). -/
def runLoop (query runId : String) (baseQs : List String) (o : Oracles) :
    Nat → Nat → LoopState → LoopState
  | 0, _, st => st
  | fuel + 1, passIdx, st =>
    let qs := passQuestions baseQs st.followUps passIdx
    let pres := run_pipeline st.db query qs.1 qs.2 runId
      (o.search passIdx) (o.summ passIdx) (o.final passIdx)
    let jr := o.judge passIdx
    let db2 := insertJudgeEval pres.db runId jr
    let st' : LoopState :=
      ⟨db2, st.followUps, some pres.answer, some jr, st.passes + 1⟩
    if CONFIDENCE_THRESHOLD ≤ jr.confidence_score then st'
    else runLoop query runId baseQs o fuel (passIdx + 1)
      { st' with followUps := mergeFollowUps st.followUps jr.recommended_follow_up }

/-- `UPDATE research_runs SET final_answer = ? WHERE id = ?`. -/
def updateRunFinalAnswer (db : DB) (runId : String) (fa : String) : DB :=
  { db with research_runs :=
      (db.research_runs.map
        (fun r => if r.id == runId then { r with final_answer := some fa } else r)) }

/-- The save step after the loop: `if final_answer:` — a `None` or
empty answer skips the update. -/
def saveFinalAnswer (db : DB) (runId : String) : Option String → DB
  | none => db
  | some s => if s = "" then db else updateRunFinalAnswer db runId s

/-- What the orchestrator produced after the loop and the save step. -/
structure OrchestratorResult where
  db : DB
  finalAnswer : Option String
  lastJudge : Option JudgeResult
  passes : Nat
deriving Repr

/-- `ResearchPipeline.run` after the decomposition step: the main loop
from pass 0 with empty follow-ups, then the final-answer save. -/
def orchestrate (db : DB) (query runId : String) (baseQs : List String)
    (o : Oracles) : OrchestratorResult :=
  let st := runLoop query runId baseQs o MAX_PASSES 0 ⟨db, [], none, none, 0⟩
  ⟨saveFinalAnswer st.db runId st.finalAnswer, st.finalAnswer, st.lastJudge, st.passes⟩

/-! ## Concrete instances used by witnesses and counterexamples -/

/-- A constant search capability. -/
def cSearch : String → Evidence := fun _ => ⟨["u1"], "sn1\nsn2"⟩

/-- A constant analyzer capability. -/
def cSumm : String → String → List String := fun _ _ => ["bullet"]

/-- A synthesis capability that records both prompt parts. -/
def cFinal : String → String → String := fun q s => q ++ "|" ++ s

/-- A judge that never reaches the threshold and recommends a
duplicated follow-up list. -/
def cJudgeLow : Nat → JudgeResult :=
  fun _ => ⟨"NEEDS_MORE_RESEARCH", mkRat 1 2, ["a", "a"]⟩

/-- A database holding one run `r1` with one sub-question `s1`. -/
def db1 : DB :=
  { emptyDB with
    research_runs := [⟨"r1", "q", "factual", "i", "parallel", "simple", none⟩],
    sub_questions := [⟨1, "r1", "s1", 1⟩],
    nextSubQId := 2 }

/-- `db1` with one stored depth search row for sub-question 1. -/
def db2 : DB :=
  { db1 with search_results := [⟨1, "s1", "depth", some "u0", none, some "snip0"⟩] }

/-- Low-confidence oracles with a duplicated recommendation list. -/
def oLow : Oracles := ⟨fun _ => cSearch, fun _ => cSumm, fun _ => cFinal, cJudgeLow⟩

/-- A confident judge whose synthesis returns the empty string. -/
def oEmptyAnswer : Oracles :=
  ⟨fun _ => cSearch, fun _ => cSumm, fun _ _ _ => "",
    fun _ => ⟨"READY_TO_DELIVER", mkRat 9 10, []⟩⟩

/-- A confident judge whose synthesis returns `"ans"`. -/
def oGoodAnswer : Oracles :=
  ⟨fun _ => cSearch, fun _ => cSumm, fun _ _ _ => "ans",
    fun _ => ⟨"READY_TO_DELIVER", mkRat 9 10, []⟩⟩

/-- A database with two runs `A` and `B` sharing the sub-question text
`sq`, and a summary already cached for run `A`'s copy (id 1). -/
def dbShared : DB :=
  { emptyDB with
    research_runs :=
      [⟨"A", "qa", "factual", "i", "parallel", "simple", none⟩,
       ⟨"B", "qb", "factual", "i", "parallel", "simple", none⟩],
    sub_questions := [⟨1, "A", "sq", 1⟩, ⟨2, "B", "sq", 1⟩],
    summaries := [⟨1, ["from run A"]⟩],
    nextSubQId := 3 }

/-! ## Helper lemmas -/

theorem mem_dedupKeepFirstAux {q : String} :
    ∀ (l seen : List String), q ∈ dedupKeepFirstAux seen l ↔ (q ∈ l ∧ q ∉ seen) := by
  intro l
  induction l with
  | nil => intro seen; simp [dedupKeepFirstAux]
  | cons x xs ih =>
    intro seen
    simp only [dedupKeepFirstAux]
    by_cases hx : x ∈ seen
    · rw [if_pos hx]
      rw [ih seen]
      simp only [List.mem_cons]
      constructor
      · rintro ⟨h1, h2⟩
        exact ⟨Or.inr h1, h2⟩
      · rintro ⟨rfl | h1, h2⟩
        · exact absurd hx h2
        · exact ⟨h1, h2⟩
    · rw [if_neg hx]
      simp only [List.mem_cons, ih (x :: seen), List.mem_cons]
      constructor
      · rintro (rfl | ⟨h1, h2⟩)
        · exact ⟨Or.inl rfl, hx⟩
        · exact ⟨Or.inr h1, fun hq => h2 (Or.inr hq)⟩
      · rintro ⟨h0, h2⟩
        by_cases hqx : q = x
        · exact Or.inl hqx
        · rcases h0 with rfl | h1
          · exact absurd rfl hqx
          · exact Or.inr ⟨h1, fun hq => hq.elim hqx h2⟩

theorem mem_dedupKeepFirst {q : String} {l : List String} :
    q ∈ dedupKeepFirst l ↔ q ∈ l := by
  simp [dedupKeepFirst, mem_dedupKeepFirstAux]

theorem cacheScan_all_missing {db : DB} {runId : String} :
    ∀ {l : List String}, (∀ q ∈ l, subQMapLookup db runId q = none) →
      cacheScan db runId l = ⟨[], l⟩ := by
  intro l
  induction l with
  | nil => intro _; rfl
  | cons x xs ih =>
    intro h
    have hx := h x (List.mem_cons_self x xs)
    have hrest := ih (fun q hq => h q (List.mem_cons_of_mem x hq))
    simp [cacheScan, hx, hrest]

theorem cacheScan_missing_mem {db : DB} {runId : String} {q : String} :
    ∀ {l : List String}, q ∈ l → subQMapLookup db runId q = none →
      q ∈ (cacheScan db runId l).missing := by
  intro l
  induction l with
  | nil => intro h; exact absurd h (List.not_mem_nil q)
  | cons x xs ih =>
    intro hq hnone
    rcases List.mem_cons.mp hq with rfl | hq'
    · simp [cacheScan, hnone]
    · simp only [cacheScan]
      cases hx : subQMapLookup db runId x with
      | none => exact List.mem_cons_of_mem x (ih hq' hnone)
      | some sid =>
        by_cases hrows : (depthRows db sid).isEmpty
        · simp only [hrows, if_pos]
          exact List.mem_cons_of_mem x (ih hq' hnone)
        · simp only [hrows, if_neg, Bool.false_eq_true, not_false_iff]
          exact ih hq' hnone

theorem cacheScan_hit_not_missing {db : DB} {runId : String} {q : String} {sid : Nat}
    (hlook : subQMapLookup db runId q = some sid)
    (hrows : depthRows db sid ≠ []) :
    ∀ {l : List String}, q ∉ (cacheScan db runId l).missing := by
  intro l
  induction l with
  | nil => simp [cacheScan]
  | cons x xs ih =>
    simp only [cacheScan]
    cases hx : subQMapLookup db runId x with
    | none =>
      intro hmem
      rcases List.mem_cons.mp hmem with rfl | hmem'
      · rw [hx] at hlook; exact Option.noConfusion hlook
      · exact ih hmem'
    | some sid' =>
      by_cases hempty : (depthRows db sid').isEmpty
      · simp only [hempty, if_pos]
        intro hmem
        rcases List.mem_cons.mp hmem with rfl | hmem'
        · rw [hx] at hlook
          have : sid' = sid := by injection hlook
          rw [this] at hempty
          exact hrows (List.isEmpty_iff.mp hempty)
        · exact ih hmem'
      · simp only [hempty, if_neg, Bool.false_eq_true, not_false_iff]
        exact ih

theorem cacheScan_hit_mem_cached {db : DB} {runId : String} {q : String} {sid : Nat}
    (hlook : subQMapLookup db runId q = some sid)
    (hrows : depthRows db sid ≠ []) :
    ∀ {l : List String}, q ∈ l →
      (q, assembleEvidence (depthRows db sid)) ∈ (cacheScan db runId l).cached := by
  intro l
  induction l with
  | nil => intro h; exact absurd h (List.not_mem_nil q)
  | cons x xs ih =>
    intro hq
    simp only [cacheScan]
    rcases List.mem_cons.mp hq with rfl | hq'
    · rw [hlook]
      have hempty : (depthRows db sid).isEmpty = false := by
        cases he : (depthRows db sid).isEmpty
        · rfl
        · exact absurd (List.isEmpty_iff.mp he) hrows
      simp [hempty]
    · cases hx : subQMapLookup db runId x with
      | none => exact ih hq'
      | some sid' =>
        by_cases hempty : (depthRows db sid').isEmpty
        · simp only [hempty, if_pos]
          exact ih hq'
        · simp only [hempty, if_neg, Bool.false_eq_true, not_false_iff]
          exact List.mem_cons_of_mem _ (ih hq')

theorem freshRows_eq_nil {db : DB} {runId q : String} {data : Evidence}
    (h : subQMapLookup db runId q = none) : freshRows db runId q data = [] := by
  simp [freshRows, h]

theorem mem_freshRows {db : DB} {runId q : String} {data : Evidence}
    {r : SearchResultRow} (h : r ∈ freshRows db runId q data) :
    (∃ sid, subQMapLookup db runId q = some sid) ∧ r.search_query = q := by
  unfold freshRows at h
  cases hl : subQMapLookup db runId q with
  | none => rw [hl] at h; exact absurd h (List.not_mem_nil r)
  | some sid =>
    rw [hl] at h
    refine ⟨⟨sid, rfl⟩, ?_⟩
    rcases List.mem_append.mp h with h' | h'
    · rcases List.mem_map.mp h' with ⟨b, _, rfl⟩; rfl
    · rcases List.mem_map.mp h' with ⟨u, _, rfl⟩; rfl

theorem analyzeSubQuestions_db (summO : String → String → List String) :
    ∀ (l : List (String × Evidence)) (db : DB),
      ∃ extra, (analyzeSubQuestions summO db l).1 =
        { db with summaries := db.summaries ++ extra } := by
  intro l
  induction l with
  | nil =>
    intro db
    exact ⟨[], by simp [analyzeSubQuestions]⟩
  | cons qd rest ih =>
    intro db
    obtain ⟨q, data⟩ := qd
    cases hfind : findSubQByText db q with
    | none =>
      simp only [analyzeSubQuestions, hfind]
      exact ih db
    | some row =>
      cases hsum : findSummary db row.id with
      | some s =>
        simp only [analyzeSubQuestions, hfind, hsum]
        exact ih db
      | none =>
        simp only [analyzeSubQuestions, hfind, hsum]
        obtain ⟨extra, hex⟩ :=
          ih { db with summaries := db.summaries ++ [⟨row.id, summO q data.snippets⟩] }
        refine ⟨⟨row.id, summO q data.snippets⟩ :: extra, ?_⟩
        rw [hex]
        simp

theorem analyzeSubQuestions_sub_questions (summO : String → String → List String)
    (l : List (String × Evidence)) (db : DB) :
    (analyzeSubQuestions summO db l).1.sub_questions = db.sub_questions := by
  obtain ⟨extra, hex⟩ := analyzeSubQuestions_db summO l db
  rw [hex]

theorem analyzeSubQuestions_research_runs (summO : String → String → List String)
    (l : List (String × Evidence)) (db : DB) :
    (analyzeSubQuestions summO db l).1.research_runs = db.research_runs := by
  obtain ⟨extra, hex⟩ := analyzeSubQuestions_db summO l db
  rw [hex]

theorem analyzeSubQuestions_search_results (summO : String → String → List String)
    (l : List (String × Evidence)) (db : DB) :
    (analyzeSubQuestions summO db l).1.search_results = db.search_results := by
  obtain ⟨extra, hex⟩ := analyzeSubQuestions_db summO l db
  rw [hex]

theorem analyzeSubQuestions_all_unknown (summO : String → String → List String) :
    ∀ (l : List (String × Evidence)) (db : DB),
      (∀ qd ∈ l, findSubQByText db qd.1 = none) →
      analyzeSubQuestions summO db l = (db, []) := by
  intro l
  induction l with
  | nil => intro db _; rfl
  | cons qd rest ih =>
    intro db h
    obtain ⟨q, data⟩ := qd
    have hq : findSubQByText db q = none := h (q, data) (List.mem_cons_self _ _)
    simp only [analyzeSubQuestions, hq]
    exact ih db (fun x hx => h x (List.mem_cons_of_mem _ hx))

theorem run_pipeline_sub_questions (db : DB) (query : String)
    (baseQs folQs : List String) (runId : String) (sO : String → Evidence)
    (mO : String → String → List String) (fO : String → String → String) :
    (run_pipeline db query baseQs folQs runId sO mO fO).db.sub_questions =
      db.sub_questions := by
  simp only [run_pipeline]
  rw [analyzeSubQuestions_sub_questions]
  rfl

theorem run_pipeline_research_runs (db : DB) (query : String)
    (baseQs folQs : List String) (runId : String) (sO : String → Evidence)
    (mO : String → String → List String) (fO : String → String → String) :
    (run_pipeline db query baseQs folQs runId sO mO fO).db.research_runs =
      db.research_runs := by
  simp only [run_pipeline]
  rw [analyzeSubQuestions_research_runs]
  rfl

theorem runLoop_sub_questions (query runId : String) (baseQs : List String)
    (o : Oracles) : ∀ (fuel passIdx : Nat) (st : LoopState),
    (runLoop query runId baseQs o fuel passIdx st).db.sub_questions =
      st.db.sub_questions := by
  intro fuel
  induction fuel with
  | zero => intro _ _; rfl
  | succ n ih =>
    intro passIdx st
    simp only [runLoop]
    by_cases hc : CONFIDENCE_THRESHOLD ≤ (o.judge passIdx).confidence_score
    · rw [if_pos hc]
      simp only [insertJudgeEval]
      rw [run_pipeline_sub_questions]
    · rw [if_neg hc]
      rw [ih]
      simp only [insertJudgeEval]
      rw [run_pipeline_sub_questions]

theorem runLoop_research_runs (query runId : String) (baseQs : List String)
    (o : Oracles) : ∀ (fuel passIdx : Nat) (st : LoopState),
    (runLoop query runId baseQs o fuel passIdx st).db.research_runs =
      st.db.research_runs := by
  intro fuel
  induction fuel with
  | zero => intro _ _; rfl
  | succ n ih =>
    intro passIdx st
    simp only [runLoop]
    by_cases hc : CONFIDENCE_THRESHOLD ≤ (o.judge passIdx).confidence_score
    · rw [if_pos hc]
      simp only [insertJudgeEval]
      rw [run_pipeline_research_runs]
    · rw [if_neg hc]
      rw [ih]
      simp only [insertJudgeEval]
      rw [run_pipeline_research_runs]

theorem saveFinalAnswer_sub_questions (db : DB) (runId : String) (fa : Option String) :
    (saveFinalAnswer db runId fa).sub_questions = db.sub_questions := by
  cases fa with
  | none => rfl
  | some s =>
    simp only [saveFinalAnswer]
    by_cases hs : s = ""
    · rw [if_pos hs]
    · rw [if_neg hs]; rfl

theorem sortByPos_of_chain :
    ∀ {l : List SubQRow}, List.Chain' (fun a b => a.position ≤ b.position) l →
      sortByPos l = l := by
  intro l
  induction l with
  | nil => intro _; rfl
  | cons x xs ih =>
    intro h
    have hxs : List.Chain' (fun a b => a.position ≤ b.position) xs := h.tail
    simp only [sortByPos, ih hxs]
    cases xs with
    | nil => rfl
    | cons y ys =>
      have hxy : x.position ≤ y.position := List.chain'_cons.mp h |>.1
      simp [insertByPos, hxy]

theorem mkSubQRows_chain (rid : String) :
    ∀ (qs : List String) (s p : Nat),
      List.Chain' (fun a b => a.position ≤ b.position) (mkSubQRows s rid p qs) := by
  intro qs
  induction qs with
  | nil => intro s p; simp [mkSubQRows]
  | cons q qs' ih =>
    intro s p
    simp only [mkSubQRows]
    cases qs' with
    | nil => simp [mkSubQRows]
    | cons q' qs'' =>
      simp only [mkSubQRows]
      rw [List.chain'_cons]
      refine ⟨Nat.le_succ p, ?_⟩
      have h := ih (s + 1) (p + 1)
      simpa [mkSubQRows] using h

theorem mkSubQRows_map_text (rid : String) :
    ∀ (qs : List String) (s p : Nat),
      (mkSubQRows s rid p qs).map (fun r => r.sub_question) = qs := by
  intro qs
  induction qs with
  | nil => intro s p; rfl
  | cons q qs' ih =>
    intro s p
    simp only [mkSubQRows, List.map_cons, ih]

theorem mkSubQRows_rid (rid : String) :
    ∀ (qs : List String) (s p : Nat) (r : SubQRow),
      r ∈ mkSubQRows s rid p qs → r.research_run_id = rid := by
  intro qs
  induction qs with
  | nil => intro s p r h; exact absurd h (List.not_mem_nil r)
  | cons q qs' ih =>
    intro s p r h
    rcases List.mem_cons.mp h with rfl | h'
    · rfl
    · exact ih (s + 1) (p + 1) r h'

theorem runSubQuestionsOrdered_insert (db' : DB) (rid : String)
    (qs : List String) (old : List SubQRow) (sId : Nat)
    (hsub : db'.sub_questions = old ++ mkSubQRows sId rid 1 qs)
    (hfresh : ∀ r ∈ old, r.research_run_id ≠ rid) :
    runSubQuestionsOrdered db' rid = qs := by
  unfold runSubQuestionsOrdered
  rw [hsub]
  have hold : old.filter (fun r => r.research_run_id == rid) = [] := by
    rw [List.filter_eq_nil_iff]
    intro r hr
    simpa using hfresh r hr
  have hnew : (mkSubQRows sId rid 1 qs).filter
      (fun r => r.research_run_id == rid) = mkSubQRows sId rid 1 qs := by
    rw [List.filter_eq_self]
    intro r hr
    simpa using mkSubQRows_rid rid qs sId 1 r hr
  simp only [List.filter_append, hold, hnew, List.nil_append]
  rw [sortByPos_of_chain (mkSubQRows_chain rid qs sId 1)]
  exact mkSubQRows_map_text rid qs sId 1

theorem resolverMiss_shape (db : DB) (query fresh : String) (m : Option String)
    (c : String → Option String) (d : String → String → Option RawDecomp) :
    (resolverMiss db query fresh m c d).run_id = fresh ∧
    (∃ row : RunRow,
      (resolverMiss db query fresh m c d).db.research_runs = db.research_runs ++ [row] ∧
      row.id = fresh ∧ row.original_query = query) ∧
    (resolverMiss db query fresh m c d).db.sub_questions =
      db.sub_questions ++
        mkSubQRows db.nextSubQId fresh 1 (resolverMiss db query fresh m c d).sub_questions :=
  ⟨rfl, ⟨_, rfl, rfl, rfl⟩, rfl⟩

theorem lastRunMatching_insert (db' : DB) (query : String) (row : RunRow)
    (old : List RunRow) (h : db'.research_runs = old ++ [row])
    (hq : row.original_query = query) :
    lastRunMatching db' query = some row := by
  unfold lastRunMatching
  rw [h, List.reverse_append]
  simp [hq]

theorem mergeFollowUps_def (cur rec : List String) :
    mergeFollowUps cur rec = cur ++ rec.filter (fun q => decide (q ∉ cur)) := rfl

theorem mergeFollowUps_nodup {cur rec : List String} (hc : cur.Nodup)
    (hr : rec.Nodup) : (mergeFollowUps cur rec).Nodup := by
  rw [mergeFollowUps_def]
  refine List.Nodup.append hc (hr.filter _) ?_
  intro a ha hfa
  have hp := List.of_mem_filter hfa
  simp only [decide_eq_true_eq] at hp
  exact hp ha

theorem mergeFollowUps_take (cur rec : List String) :
    (mergeFollowUps cur rec).take cur.length = cur := by
  rw [mergeFollowUps_def]
  exact List.take_left cur _

theorem mergeFollowUps_drop_sublist (cur rec : List String) :
    List.Sublist ((mergeFollowUps cur rec).drop cur.length) rec := by
  rw [mergeFollowUps_def, List.drop_left]
  exact List.filter_sublist rec

theorem mergeFollowUps_length_le (cur rec : List String) :
    cur.length ≤ (mergeFollowUps cur rec).length := by
  rw [mergeFollowUps_def, List.length_append]
  exact Nat.le_add_right _ _

theorem foldl_merge_take : ∀ (recs : List (List String)) (cur : List String),
    (recs.foldl mergeFollowUps cur).take cur.length = cur := by
  intro recs
  induction recs with
  | nil => intro cur; exact List.take_length cur
  | cons r rs ih =>
    intro cur
    simp only [List.foldl_cons]
    have h2 := mergeFollowUps_length_le cur r
    have key : (rs.foldl mergeFollowUps (mergeFollowUps cur r)).take cur.length
        = ((rs.foldl mergeFollowUps (mergeFollowUps cur r)).take
            (mergeFollowUps cur r).length).take cur.length := by
      rw [List.take_take]
      congr 1
      exact (Nat.min_eq_left h2).symm
    rw [key, ih (mergeFollowUps cur r), mergeFollowUps_take]

theorem foldl_merge_length (recs : List (List String)) (cur : List String) :
    cur.length ≤ (recs.foldl mergeFollowUps cur).length := by
  have h := congrArg List.length (foldl_merge_take recs cur)
  rw [List.length_take] at h
  exact min_eq_left_iff.mp h

theorem foldl_merge_nodup : ∀ (recs : List (List String)) (cur : List String),
    cur.Nodup → (∀ r ∈ recs, r.Nodup) →
    (recs.foldl mergeFollowUps cur).Nodup := by
  intro recs
  induction recs with
  | nil => intro cur hc _; exact hc
  | cons r rs ih =>
    intro cur hc hr
    simp only [List.foldl_cons]
    exact ih _ (mergeFollowUps_nodup hc (hr r (List.mem_cons_self r rs)))
      (fun x hx => hr x (List.mem_cons_of_mem _ hx))

theorem subQMapLookup_eq_none {db : DB} {rid q : String}
    (h : ∀ r ∈ db.sub_questions, r.sub_question ≠ q) :
    subQMapLookup db rid q = none := by
  unfold subQMapLookup
  have hfind : ((db.sub_questions.filter
      (fun r => r.research_run_id == rid)).reverse).find?
      (fun r => r.sub_question == q) = none := by
    rw [List.find?_eq_none]
    intro r hr
    have hmem : r ∈ db.sub_questions :=
      (List.mem_filter.mp (List.mem_reverse.mp hr)).1
    simp [h r hmem]
  rw [hfind]
  rfl

theorem findSubQByText_eq_none {db : DB} {q : String}
    (h : ∀ r ∈ db.sub_questions, r.sub_question ≠ q) :
    findSubQByText db q = none := by
  unfold findSubQByText
  rw [List.find?_eq_none]
  intro r hr
  simp [h r hr]

theorem run_pipeline_all_unknown (db : DB) (query runId : String)
    (fol : List String) (sO : String → Evidence)
    (mO : String → String → List String) (fO : String → String → String)
    (h : ∀ q ∈ fol, ∀ r ∈ db.sub_questions, r.sub_question ≠ q) :
    run_pipeline db query [] fol runId sO mO fO =
      ⟨fO query "", db, dedupKeepFirst fol, [],
        (dedupKeepFirst fol).map (fun q => (q, sO q))⟩ := by
  have hl : ∀ q ∈ dedupKeepFirst fol, subQMapLookup db runId q = none := by
    intro q hq
    exact subQMapLookup_eq_none (h q (mem_dedupKeepFirst.mp hq))
  have hscan : cacheScan db runId (dedupKeepFirst fol) = ⟨[], dedupKeepFirst fol⟩ :=
    cacheScan_all_missing hl
  have hpers : persistFresh db runId
      ((dedupKeepFirst fol).map (fun q => (q, sO q))) db = db := by
    simp only [persistFresh, List.map_map]
    have hnil : ∀ q ∈ dedupKeepFirst fol,
        freshRows db runId q (sO q) = [] := by
      intro q hq
      exact freshRows_eq_nil (hl q hq)
    have : ((dedupKeepFirst fol).map
        ((fun qd : String × Evidence => freshRows db runId qd.1 qd.2) ∘
          (fun q => (q, sO q)))).flatten = [] := by
      rw [List.flatten_eq_nil_iff]
      intro xs hxs
      rcases List.mem_map.mp hxs with ⟨q, hq, rfl⟩
      exact hnil q hq
    rw [this, List.append_nil]
  have hana : analyzeSubQuestions mO db
      ((dedupKeepFirst fol).map (fun q => (q, sO q))) = (db, []) := by
    apply analyzeSubQuestions_all_unknown
    intro qd hqd
    rcases List.mem_map.mp hqd with ⟨q, hq, rfl⟩
    exact findSubQByText_eq_none (h q (mem_dedupKeepFirst.mp hq))
  simp only [run_pipeline, List.nil_append, hscan, hpers, hana, summariesBlock,
    List.map_nil, String.intercalate]

theorem runLoop_passes_le (query runId : String) (baseQs : List String)
    (o : Oracles) : ∀ (fuel passIdx : Nat) (st : LoopState),
    (runLoop query runId baseQs o fuel passIdx st).passes ≤ st.passes + fuel := by
  intro fuel
  induction fuel with
  | zero => intro _ st; simp [runLoop]
  | succ n ih =>
    intro passIdx st
    simp only [runLoop]
    by_cases hc : CONFIDENCE_THRESHOLD ≤ (o.judge passIdx).confidence_score
    · rw [if_pos hc]
      show st.passes + 1 ≤ st.passes + (n + 1)
      omega
    · rw [if_neg hc]
      refine le_trans (ih (passIdx + 1) _) ?_
      show st.passes + 1 + n ≤ st.passes + (n + 1)
      omega

theorem runLoop_some_preserved (query runId : String) (baseQs : List String)
    (o : Oracles) : ∀ (fuel passIdx : Nat) (st : LoopState),
    st.finalAnswer.isSome → st.lastJudge.isSome →
    (runLoop query runId baseQs o fuel passIdx st).finalAnswer.isSome ∧
    (runLoop query runId baseQs o fuel passIdx st).lastJudge.isSome := by
  intro fuel
  induction fuel with
  | zero => intro _ st h1 h2; exact ⟨h1, h2⟩
  | succ n ih =>
    intro passIdx st _ _
    simp only [runLoop]
    by_cases hc : CONFIDENCE_THRESHOLD ≤ (o.judge passIdx).confidence_score
    · rw [if_pos hc]
      exact ⟨rfl, rfl⟩
    · rw [if_neg hc]
      exact ih (passIdx + 1) _ rfl rfl

theorem runLoop_some_of_pos (query runId : String) (baseQs : List String)
    (o : Oracles) : ∀ (fuel passIdx : Nat) (st : LoopState), 1 ≤ fuel →
    (runLoop query runId baseQs o fuel passIdx st).finalAnswer.isSome ∧
    (runLoop query runId baseQs o fuel passIdx st).lastJudge.isSome := by
  intro fuel
  cases fuel with
  | zero => intro _ _ h; omega
  | succ n =>
    intro passIdx st _
    simp only [runLoop]
    by_cases hc : CONFIDENCE_THRESHOLD ≤ (o.judge passIdx).confidence_score
    · rw [if_pos hc]
      exact ⟨rfl, rfl⟩
    · rw [if_neg hc]
      exact runLoop_some_preserved query runId baseQs o n (passIdx + 1) _ rfl rfl

theorem runLoop_exhaust (query runId : String) (baseQs : List String)
    (o : Oracles) : ∀ (fuel passIdx : Nat) (st : LoopState),
    (∀ i, passIdx ≤ i → i < passIdx + fuel →
      (o.judge i).confidence_score < CONFIDENCE_THRESHOLD) →
    (runLoop query runId baseQs o fuel passIdx st).passes = st.passes + fuel ∧
    (1 ≤ fuel → (runLoop query runId baseQs o fuel passIdx st).lastJudge =
      some (o.judge (passIdx + fuel - 1))) := by
  intro fuel
  induction fuel with
  | zero =>
    intro passIdx st _
    exact ⟨rfl, by omega⟩
  | succ n ih =>
    intro passIdx st h
    have hlt : (o.judge passIdx).confidence_score < CONFIDENCE_THRESHOLD :=
      h passIdx (le_refl _) (by omega)
    have hc : ¬ CONFIDENCE_THRESHOLD ≤ (o.judge passIdx).confidence_score :=
      not_le.mpr hlt
    simp only [runLoop]
    rw [if_neg hc]
    have h' : ∀ i, passIdx + 1 ≤ i → i < (passIdx + 1) + n →
        (o.judge i).confidence_score < CONFIDENCE_THRESHOLD := by
      intro i hi1 hi2
      exact h i (by omega) (by omega)
    obtain ⟨hp, hj⟩ := ih (passIdx + 1) _ h'
    constructor
    · rw [hp]
      show st.passes + 1 + n = st.passes + (n + 1)
      omega
    · intro _
      cases n with
      | zero => rfl
      | succ m =>
        rw [hj (by omega)]
        congr 2
        omega

/-! ## Claim theorems -/

/-- C1: the claim states that an accepted judge-recommended follow-up
question receives a new SubQuestion record tied to the run, appended
after existing positions.  The code does not do this: the orchestrator
loop (including the follow-up merge of pipeline.py lines 78–84) and the
final save step never insert into `sub_questions`, for any inputs and
any judge recommendations — the whole `sub_questions` table is exactly
what the decomposition resolver left there. -/
theorem orchestrate_preserves_sub_questions (db : DB) (query runId : String)
    (baseQs : List String) (o : Oracles) :
    (orchestrate db query runId baseQs o).db.sub_questions = db.sub_questions := by
  simp only [orchestrate]
  rw [saveFinalAnswer_sub_questions]
  exact runLoop_sub_questions query runId baseQs o MAX_PASSES 0 ⟨db, [], none, none, 0⟩

/-- C2: every pass with index ≥ 1 researches exactly the accumulated
follow-up questions; when none of them matches any stored sub_questions
row, `run_pipeline` persists no SearchResult rows, the analyzed mapping
is empty, and the candidate answer is synthesized from an empty
summaries block (only the original query). -/
theorem followup_pass_unmatched_empty (db : DB) (query runId : String)
    (baseQs fol : List String) (passIdx : Nat)
    (sO : String → Evidence) (mO : String → String → List String)
    (fO : String → String → String) (hp : 1 ≤ passIdx)
    (h : ∀ q ∈ fol, ∀ r ∈ db.sub_questions, r.sub_question ≠ q) :
    passQuestions baseQs fol passIdx = ([], fol) ∧
    (run_pipeline db query [] fol runId sO mO fO).db.search_results =
      db.search_results ∧
    (run_pipeline db query [] fol runId sO mO fO).analyzed = [] ∧
    (run_pipeline db query [] fol runId sO mO fO).answer = fO query "" := by
  have hpq : passQuestions baseQs fol passIdx = ([], fol) := by
    have hne : passIdx ≠ 0 := by omega
    simp [passQuestions, hne]
  have hrp := run_pipeline_all_unknown db query runId fol sO mO fO h
  rw [hrp]
  exact ⟨hpq, rfl, rfl, rfl⟩

/-- C2 witness: a second pass whose single follow-up question matches
no stored sub-question row. -/
theorem followup_pass_unmatched_empty_witness :
    passQuestions ["s1"] ["f1"] 1 = ([], ["f1"]) ∧
    (run_pipeline db1 "q" [] ["f1"] "r1" cSearch cSumm cFinal).db.search_results =
      db1.search_results ∧
    (run_pipeline db1 "q" [] ["f1"] "r1" cSearch cSumm cFinal).analyzed = [] ∧
    (run_pipeline db1 "q" [] ["f1"] "r1" cSearch cSumm cFinal).answer =
      cFinal "q" "" :=
  followup_pass_unmatched_empty db1 "q" "r1" ["s1"] ["f1"] 1 cSearch cSumm cFinal
    (by decide) (by decide)

/-- C4: a sub-question of the run that already has at least one stored
depth SearchResult row is never re-submitted to the search capability
by a later evidence-gathering call that contains it, and its evidence
is assembled from the stored rows. -/
theorem evidence_cache_reuse (db : DB) (query runId q : String) (sid : Nat)
    (baseQs folQs : List String) (sO : String → Evidence)
    (mO : String → String → List String) (fO : String → String → String)
    (hq : q ∈ baseQs ++ folQs)
    (hlook : subQMapLookup db runId q = some sid)
    (hrows : depthRows db sid ≠ []) :
    q ∉ (run_pipeline db query baseQs folQs runId sO mO fO).searchCalls ∧
    (q, assembleEvidence (depthRows db sid)) ∈
      (run_pipeline db query baseQs folQs runId sO mO fO).results := by
  have hq' : q ∈ dedupKeepFirst (baseQs ++ folQs) := mem_dedupKeepFirst.mpr hq
  constructor
  · show q ∉ (cacheScan db runId (dedupKeepFirst (baseQs ++ folQs))).missing
    exact cacheScan_hit_not_missing hlook hrows
  · show _ ∈ (cacheScan db runId (dedupKeepFirst (baseQs ++ folQs))).cached ++ _
    exact List.mem_append_left _ (cacheScan_hit_mem_cached hlook hrows hq')

/-- C4 witness: `s1` has a stored depth row in `db2`, so re-gathering
it issues no search call and reuses the stored evidence. -/
theorem evidence_cache_reuse_witness :
    "s1" ∉ (run_pipeline db2 "q" ["s1"] [] "r1" cSearch cSumm cFinal).searchCalls ∧
    ("s1", assembleEvidence (depthRows db2 1)) ∈
      (run_pipeline db2 "q" ["s1"] [] "r1" cSearch cSumm cFinal).results :=
  evidence_cache_reuse db2 "q" "r1" "s1" 1 ["s1"] [] cSearch cSumm cFinal
    (by decide) (by decide) (by decide)

/-- C5 counterexample: the claim promises no duplicates in the
cumulative follow-up list for ANY judge-recommended lists, but a
recommendation list that itself repeats a question (here
`["a", "a"]`, filtered only against the pre-merge list) is appended
with both copies: after pass 0 the orchestrator's follow-up list is
`["a", "a"]`. -/
theorem followup_merge_duplicate_cex :
    (runLoop "q" "r1" [] oLow 1 0 ⟨db1, [], none, none, 0⟩).followUps = ["a", "a"] ∧
    ¬ ((runLoop "q" "r1" [] oLow 1 0 ⟨db1, [], none, none, 0⟩).followUps).Nodup := by
  decide

/-- C5 amended: unconditionally — for ANY recommendation lists,
duplicated or not — no earlier element is ever dropped (the pre-merge
list stays an initial segment of each merge and of any sequence of
merges), appended elements keep the recommended list's order, and the
length never decreases; the at-most-once property holds provided every
judge-recommended list is itself free of internal duplicates. -/
theorem followup_merge_amended (cur rec : List String) (recs : List (List String)) :
    (mergeFollowUps cur rec).take cur.length = cur ∧
    List.Sublist ((mergeFollowUps cur rec).drop cur.length) rec ∧
    cur.length ≤ (mergeFollowUps cur rec).length ∧
    (recs.foldl mergeFollowUps cur).take cur.length = cur ∧
    cur.length ≤ (recs.foldl mergeFollowUps cur).length ∧
    (cur.Nodup → rec.Nodup → (mergeFollowUps cur rec).Nodup) ∧
    (cur.Nodup → (∀ r ∈ recs, r.Nodup) → (recs.foldl mergeFollowUps cur).Nodup) :=
  ⟨mergeFollowUps_take cur rec, mergeFollowUps_drop_sublist cur rec,
    mergeFollowUps_length_le cur rec, foldl_merge_take recs cur,
    foldl_merge_length recs cur,
    fun hc hr => mergeFollowUps_nodup hc hr,
    fun hc hrs => foldl_merge_nodup recs cur hc hrs⟩

/-- C5 amended witness: the unconditional conjuncts at a recommendation
list that duplicates an element, and the Nodup conjuncts discharged at
duplicate-free lists. -/
theorem followup_merge_amended_witness :
    ((mergeFollowUps ["a"] ["b", "b"]).take (["a"] : List String).length = ["a"] ∧
      List.Sublist ((mergeFollowUps ["a"] ["b", "b"]).drop
        (["a"] : List String).length) ["b", "b"] ∧
      (["a"] : List String).length ≤ (mergeFollowUps ["a"] ["b", "b"]).length ∧
      ([["c"], ["c"]].foldl mergeFollowUps ["a"]).take
        (["a"] : List String).length = ["a"] ∧
      (["a"] : List String).length ≤
        ([["c"], ["c"]].foldl mergeFollowUps ["a"]).length) ∧
    (mergeFollowUps ["a"] ["b", "a"]).Nodup ∧
    ([["c"], ["b"]].foldl mergeFollowUps ["a"]).Nodup := by
  have hdup := followup_merge_amended ["a"] ["b", "b"] [["c"], ["c"]]
  have hnd := followup_merge_amended ["a"] ["b", "a"] [["c"], ["b"]]
  exact ⟨⟨hdup.1, hdup.2.1, hdup.2.2.1, hdup.2.2.2.1, hdup.2.2.2.2.1⟩,
    hnd.2.2.2.2.2.1 (by decide) (by decide),
    hnd.2.2.2.2.2.2 (by decide) (by decide)⟩

/-- C8 counterexample: the claim says a question with no matching
SubQuestion row for the run is skipped from search with no
search-capability call issued for it; but `b` (unknown in `db1`) is
placed on `missing_questions` and submitted to the search capability. -/
theorem unknown_question_searched_cex :
    subQMapLookup db1 "r1" "b" = none ∧
    "b" ∈ (run_pipeline db1 "q" ["s1", "b"] [] "r1" cSearch cSumm cFinal).searchCalls := by
  decide

/-- C8 amended: a question with no matching SubQuestion row for the run
IS submitted to the search capability, but the condition is non-fatal
and nothing is persisted for it: every SearchResult row of the
resulting state is either pre-existing or belongs to a different
question. -/
theorem unknown_question_skip_amended (db : DB) (query runId q : String)
    (baseQs folQs : List String) (sO : String → Evidence)
    (mO : String → String → List String) (fO : String → String → String)
    (hq : q ∈ baseQs ++ folQs)
    (hnone : subQMapLookup db runId q = none) :
    q ∈ (run_pipeline db query baseQs folQs runId sO mO fO).searchCalls ∧
    (∀ r ∈ (run_pipeline db query baseQs folQs runId sO mO fO).db.search_results,
      r ∈ db.search_results ∨ r.search_query ≠ q) := by
  have hq' : q ∈ dedupKeepFirst (baseQs ++ folQs) := mem_dedupKeepFirst.mpr hq
  constructor
  · show q ∈ (cacheScan db runId (dedupKeepFirst (baseQs ++ folQs))).missing
    exact cacheScan_missing_mem hq' hnone
  · intro r hr
    have hsr : (run_pipeline db query baseQs folQs runId sO mO fO).db.search_results =
        (persistFresh db runId
          ((cacheScan db runId (dedupKeepFirst (baseQs ++ folQs))).missing.map
            (fun x => (x, sO x))) db).search_results := by
      show (analyzeSubQuestions mO _ _).1.search_results = _
      rw [analyzeSubQuestions_search_results]
    rw [hsr] at hr
    simp only [persistFresh] at hr
    rcases List.mem_append.mp hr with hold | hnew
    · exact Or.inl hold
    · right
      rcases List.mem_flatten.mp hnew with ⟨xs, hxs, hrxs⟩
      rcases List.mem_map.mp hxs with ⟨qd, _, rfl⟩
      obtain ⟨⟨sid, hsid⟩, hquery⟩ := mem_freshRows hrxs
      intro hcon
      rw [hquery] at hcon
      rw [hcon] at hsid
      rw [hnone] at hsid
      exact Option.noConfusion hsid

/-- C8 amended witness: the unknown question `b` in `db1`. -/
theorem unknown_question_skip_amended_witness :
    "b" ∈ (run_pipeline db1 "q" ["s1", "b"] [] "r1" cSearch cSumm cFinal).searchCalls ∧
    (∀ r ∈ (run_pipeline db1 "q" ["s1", "b"] [] "r1" cSearch cSumm cFinal).db.search_results,
      r ∈ db1.search_results ∨ r.search_query ≠ "b") :=
  unknown_question_skip_amended db1 "q" "r1" "b" ["s1", "b"] [] cSearch cSumm cFinal
    (by decide) (by decide)

/-- C9 counterexample: the claim says the last pass's candidate answer
is always written to the Run's final_answer; but with a synthesis call
returning the empty string, `if final_answer:` is falsy and the UPDATE
is skipped — the run row's final_answer stays NULL although the last
candidate answer was `""`. -/
theorem final_answer_empty_not_written_cex :
    (orchestrate db1 "q" "r1" ["s1"] oEmptyAnswer).finalAnswer = some "" ∧
    (orchestrate db1 "q" "r1" ["s1"] oEmptyAnswer).db.research_runs.map
      (fun r => r.final_answer) = [none] := by
  decide

/-- C9 amended: the last executed pass's candidate answer is written to
the Run's final_answer — regardless of whether the confidence threshold
was met — whenever that answer is non-empty (the `if final_answer:`
truthiness guard); an empty answer skips the write. -/
theorem final_answer_persisted_amended (db : DB) (query runId : String)
    (baseQs : List String) (o : Oracles) (s : String)
    (hs : (orchestrate db query runId baseQs o).finalAnswer = some s)
    (hne : s ≠ "")
    (hrow : ∃ r ∈ db.research_runs, r.id = runId) :
    ∃ r ∈ (orchestrate db query runId baseQs o).db.research_runs,
      r.id = runId ∧ r.final_answer = some s := by
  obtain ⟨r0, hr0, hid⟩ := hrow
  have hfa : (runLoop query runId baseQs o MAX_PASSES 0
      ⟨db, [], none, none, 0⟩).finalAnswer = some s := hs
  show ∃ r ∈ (saveFinalAnswer (runLoop query runId baseQs o MAX_PASSES 0
      ⟨db, [], none, none, 0⟩).db runId (runLoop query runId baseQs o MAX_PASSES 0
      ⟨db, [], none, none, 0⟩).finalAnswer).research_runs,
      r.id = runId ∧ r.final_answer = some s
  rw [hfa]
  simp only [saveFinalAnswer, if_neg hne]
  simp only [updateRunFinalAnswer]
  rw [runLoop_research_runs]
  refine ⟨{ r0 with final_answer := some s }, ?_, by simpa using hid, rfl⟩
  have heq : (fun r : RunRow => if r.id == runId then
      { r with final_answer := some s } else r) r0 =
      { r0 with final_answer := some s } := by
    simp [hid]
  exact heq ▸ List.mem_map_of_mem _ hr0

/-- C9 amended witness: a confident first pass with answer `"ans"`. -/
theorem final_answer_persisted_amended_witness :
    ∃ r ∈ (orchestrate db1 "q" "r1" ["s1"] oGoodAnswer).db.research_runs,
      r.id = "r1" ∧ r.final_answer = some "ans" :=
  final_answer_persisted_amended db1 "q" "r1" ["s1"] oGoodAnswer "ans"
    (by decide) (by decide) (by decide)

/-- C3: calling the decomposition resolver a second time with the
identical query returns the same run id and the identical ordered
sub-question list, performing zero completion-capability invocations on
the second call.  The hypothesis says the first call's fresh uuid does
not collide with an existing sub-question row's run id. -/
theorem resolver_idempotent (db : DB) (query f1 f2 : String)
    (m1 : Option String) (c1 : String → Option String)
    (d1 : String → String → Option RawDecomp)
    (m2 : Option String) (c2 : String → Option String)
    (d2 : String → String → Option RawDecomp)
    (hfresh : ∀ r ∈ db.sub_questions, r.research_run_id ≠ f1) :
    (research_decomposition_pipeline
      (research_decomposition_pipeline db query f1 m1 c1 d1).db query f2 m2 c2 d2).run_id =
      (research_decomposition_pipeline db query f1 m1 c1 d1).run_id ∧
    (research_decomposition_pipeline
      (research_decomposition_pipeline db query f1 m1 c1 d1).db query f2 m2 c2 d2).sub_questions =
      (research_decomposition_pipeline db query f1 m1 c1 d1).sub_questions ∧
    (research_decomposition_pipeline
      (research_decomposition_pipeline db query f1 m1 c1 d1).db query f2 m2 c2 d2).completionCalls = 0 := by
  cases hcache : lastRunMatching db query with
  | some cached =>
    simp only [research_decomposition_pipeline, hcache]
    exact ⟨trivial, trivial, trivial⟩
  | none =>
    obtain ⟨hrid, ⟨row, hruns, hrowid, hroworig⟩, hsub⟩ :=
      resolverMiss_shape db query f1 m1 c1 d1
    have hfound : lastRunMatching (resolverMiss db query f1 m1 c1 d1).db query =
        some row :=
      lastRunMatching_insert _ query row _ hruns hroworig
    simp only [research_decomposition_pipeline, hcache, hfound]
    refine ⟨?_, ?_, trivial⟩
    · rw [hrowid, hrid]
    · rw [hrowid]
      exact runSubQuestionsOrdered_insert _ f1 _ db.sub_questions db.nextSubQId
        hsub hfresh

/-- C3 witness: an empty database, with the memory retrieval failing on
the first call (fallback decomposition). -/
theorem resolver_idempotent_witness :
    (research_decomposition_pipeline
      (research_decomposition_pipeline emptyDB "q" "r1" none (fun _ => none)
        (fun _ _ => none)).db "q" "r2" none (fun _ => none) (fun _ _ => none)).run_id =
      (research_decomposition_pipeline emptyDB "q" "r1" none (fun _ => none)
        (fun _ _ => none)).run_id ∧
    (research_decomposition_pipeline
      (research_decomposition_pipeline emptyDB "q" "r1" none (fun _ => none)
        (fun _ _ => none)).db "q" "r2" none (fun _ => none) (fun _ _ => none)).sub_questions =
      (research_decomposition_pipeline emptyDB "q" "r1" none (fun _ => none)
        (fun _ _ => none)).sub_questions ∧
    (research_decomposition_pipeline
      (research_decomposition_pipeline emptyDB "q" "r1" none (fun _ => none)
        (fun _ _ => none)).db "q" "r2" none (fun _ => none) (fun _ _ => none)).completionCalls = 0 :=
  resolver_idempotent emptyDB "q" "r1" "r2" none (fun _ => none) (fun _ _ => none)
    none (fun _ => none) (fun _ _ => none) (by decide)

/-- C6: the orchestrator's loop executes at most MAX_PASSES (= 3)
passes and always produces a result with a candidate answer and a
judge evaluation; if no pass reaches the confidence threshold, the loop
exhausts the budget and ends with pass MAX_PASSES's evaluation rather
than an error. -/
theorem orchestrator_bounded_termination (db : DB) (query runId : String)
    (baseQs : List String) (o : Oracles) :
    (orchestrate db query runId baseQs o).passes ≤ MAX_PASSES ∧
    (orchestrate db query runId baseQs o).finalAnswer.isSome = true ∧
    (orchestrate db query runId baseQs o).lastJudge.isSome = true ∧
    ((∀ i, i < MAX_PASSES → (o.judge i).confidence_score < CONFIDENCE_THRESHOLD) →
      (orchestrate db query runId baseQs o).passes = MAX_PASSES ∧
      (orchestrate db query runId baseQs o).lastJudge =
        some (o.judge (MAX_PASSES - 1))) := by
  have hle := runLoop_passes_le query runId baseQs o MAX_PASSES 0 ⟨db, [], none, none, 0⟩
  have hsome := runLoop_some_of_pos query runId baseQs o MAX_PASSES 0
    ⟨db, [], none, none, 0⟩ (by decide)
  refine ⟨?_, hsome.1, hsome.2, ?_⟩
  · show (runLoop query runId baseQs o MAX_PASSES 0 ⟨db, [], none, none, 0⟩).passes ≤ MAX_PASSES
    simpa using hle
  · intro h
    have hex := runLoop_exhaust query runId baseQs o MAX_PASSES 0 ⟨db, [], none, none, 0⟩
      (fun i _ h2 => h i (by simpa using h2))
    constructor
    · show (runLoop query runId baseQs o MAX_PASSES 0 ⟨db, [], none, none, 0⟩).passes = MAX_PASSES
      simpa using hex.1
    · show (runLoop query runId baseQs o MAX_PASSES 0 ⟨db, [], none, none, 0⟩).lastJudge =
        some (o.judge (MAX_PASSES - 1))
      simpa using hex.2 (by decide)

/-- C6 witness: a judge that never reaches the threshold exhausts all
three passes and ends with pass 3's evaluation. -/
theorem orchestrator_bounded_termination_witness :
    (orchestrate db1 "q" "r1" ["s1"] oLow).passes = MAX_PASSES ∧
    (orchestrate db1 "q" "r1" ["s1"] oLow).lastJudge =
      some (oLow.judge (MAX_PASSES - 1)) :=
  (orchestrator_bounded_termination db1 "q" "r1" ["s1"] oLow).2.2.2 (by decide)

/-- C10: the summarization step resolves a question to a sub-question
id by text alone — `findSubQByText` has no run-id parameter — so any
database holding the same text in two runs resolves both to one shared
row, and a summary cached under that row's id is returned verbatim for
either run's evidence, with no new summary persisted. -/
theorem summary_shared_across_runs (db : DB) (q : String) (r1 r2 : SubQRow)
    (h1 : r1 ∈ db.sub_questions) (h2 : r2 ∈ db.sub_questions)
    (e1 : r1.sub_question = q) (e2 : r2.sub_question = q)
    (summO : String → String → List String) (dataA dataB : Evidence) :
    ∃ r, findSubQByText db q = some r ∧ r.sub_question = q ∧
      ∀ s, findSummary db r.id = some s →
        (analyzeSubQuestions summO db [(q, dataA)]).2 =
          [(q, ⟨s.summary_json, dataA.urls⟩)] ∧
        (analyzeSubQuestions summO db [(q, dataB)]).2 =
          [(q, ⟨s.summary_json, dataB.urls⟩)] ∧
        (analyzeSubQuestions summO db [(q, dataA)]).1 = db := by
  have hex : (findSubQByText db q).isSome := by
    rw [findSubQByText, List.find?_isSome]
    exact ⟨r1, h1, by simp [e1]⟩
  obtain ⟨r, hr⟩ := Option.isSome_iff_exists.mp hex
  have hrq : r.sub_question = q := by
    have hp := List.find?_some hr
    simpa using hp
  refine ⟨r, hr, hrq, ?_⟩
  intro s hs
  refine ⟨?_, ?_, ?_⟩ <;> simp [analyzeSubQuestions, hr, hs]

/-- C7 counterexample: the claim asserts that in both failure branches a
Run with at least one SubQuestion row is persisted.  But when the
classification call fails (fallback to "ambiguous") while the
decomposition call succeeds with an empty `sub_questions` list, the
resolver persists the run `r1` with zero SubQuestion rows. -/
theorem resolver_empty_decomposition_cex :
    (research_decomposition_pipeline emptyDB "q" "r1" (some "") (fun _ => none)
      (fun _ _ => some ⟨[], "i", "parallel", "simple"⟩)).classification = "ambiguous" ∧
    (research_decomposition_pipeline emptyDB "q" "r1" (some "") (fun _ => none)
      (fun _ _ => some ⟨[], "i", "parallel", "simple"⟩)).db.research_runs.map
        (fun r => r.id) = ["r1"] ∧
    (research_decomposition_pipeline emptyDB "q" "r1" (some "") (fun _ => none)
      (fun _ _ => some ⟨[], "i", "parallel", "simple"⟩)).db.sub_questions = [] := by
  decide

/-- C7 amended: on a cache miss a Run is always persisted; a failed
classification falls back to "ambiguous"; a failed decomposition falls
back to the single-element list holding the original query with the
default intent/relationship/difficulty values and persists at least one
SubQuestion row.  (When classification fails but decomposition
succeeds, the persisted SubQuestion rows are exactly the decomposition's
list, which may be empty.) -/
theorem resolver_failure_policy_amended (db : DB) (query fresh : String)
    (memO : Option String) (clsO : String → Option String)
    (decO : String → String → Option RawDecomp)
    (hmiss : lastRunMatching db query = none) :
    (∃ row ∈ (research_decomposition_pipeline db query fresh memO clsO decO).db.research_runs,
      row.id = fresh ∧ row.original_query = query) ∧
    ((memO = none ∨ ∃ ctx, memO = some ctx ∧ clsO (contextualQuery query ctx) = none) →
      (research_decomposition_pipeline db query fresh memO clsO decO).classification =
        "ambiguous") ∧
    ((memO = none ∨ ∃ ctx, memO = some ctx ∧
        decO (contextualQuery query ctx)
          (research_decomposition_pipeline db query fresh memO clsO decO).classification =
            none) →
      (research_decomposition_pipeline db query fresh memO clsO decO).sub_questions =
        [query] ∧
      (research_decomposition_pipeline db query fresh memO clsO decO).primary_intent =
        "Answer the query directly" ∧
      (research_decomposition_pipeline db query fresh memO clsO decO).relationship =
        "parallel" ∧
      (research_decomposition_pipeline db query fresh memO clsO decO).difficulty_level =
        "moderate" ∧
      ∃ s ∈ (research_decomposition_pipeline db query fresh memO clsO decO).db.sub_questions,
        s.research_run_id = fresh ∧ s.sub_question = query ∧ s.position = 1) := by
  simp only [research_decomposition_pipeline, hmiss]
  obtain ⟨hrid, ⟨row, hruns, hrowid, hroworig⟩, hsub⟩ :=
    resolverMiss_shape db query fresh memO clsO decO
  refine ⟨⟨row, ?_, hrowid, hroworig⟩, ?_, ?_⟩
  · rw [hruns]
    exact List.mem_append_right _ (List.mem_singleton_self row)
  · intro hcl
    show (resolverClassify query memO clsO).1 = "ambiguous"
    rcases hcl with rfl | ⟨ctx, rfl, hnone⟩
    · rfl
    · simp [resolverClassify, hnone]
  · intro hdec
    rcases hdec with rfl | ⟨ctx, heq, hnone⟩
    · refine ⟨rfl, rfl, rfl, rfl, ⟨db.nextSubQId, fresh, query, 1⟩, ?_, rfl, rfl, rfl⟩
      show _ ∈ db.sub_questions ++ mkSubQRows db.nextSubQId fresh 1 [query]
      exact List.mem_append_right _ (List.mem_singleton_self _)
    · subst heq
      have hnone' : decO (contextualQuery query ctx)
          (resolverClassify query (some ctx) clsO).1 = none := hnone
      have key : (resolverDecompose query (resolverClassify query (some ctx) clsO).1
          (some ctx) decO).1 = fallbackDecomp query := by
        simp [resolverDecompose, hnone']
      refine ⟨?_, ?_, ?_, ?_, ⟨db.nextSubQId, fresh, query, 1⟩, ?_, rfl, rfl, rfl⟩
      · show (resolverDecompose query (resolverClassify query (some ctx) clsO).1
            (some ctx) decO).1.sub_questions = [query]
        rw [key]; rfl
      · show (resolverDecompose query (resolverClassify query (some ctx) clsO).1
            (some ctx) decO).1.primary_intent = "Answer the query directly"
        rw [key]; rfl
      · show (resolverDecompose query (resolverClassify query (some ctx) clsO).1
            (some ctx) decO).1.relationship = "parallel"
        rw [key]; rfl
      · show (resolverDecompose query (resolverClassify query (some ctx) clsO).1
            (some ctx) decO).1.difficulty_level = "moderate"
        rw [key]; rfl
      · show _ ∈ db.sub_questions ++ mkSubQRows db.nextSubQId fresh 1
          (resolverDecompose query (resolverClassify query (some ctx) clsO).1
            (some ctx) decO).1.sub_questions
        rw [key]
        exact List.mem_append_right _ (List.mem_singleton_self _)

/-- C7 amended witness: memory retrieval raising makes both the
classification and decomposition try-blocks fail; the fallback run and
its single sub-question are persisted. -/
theorem resolver_failure_policy_amended_witness :
    (∃ row ∈ (research_decomposition_pipeline emptyDB "q" "r1" none (fun _ => none)
        (fun _ _ => none)).db.research_runs,
      row.id = "r1" ∧ row.original_query = "q") ∧
    ((research_decomposition_pipeline emptyDB "q" "r1" none (fun _ => none)
        (fun _ _ => none)).classification = "ambiguous") ∧
    ((research_decomposition_pipeline emptyDB "q" "r1" none (fun _ => none)
        (fun _ _ => none)).sub_questions = ["q"] ∧
      (research_decomposition_pipeline emptyDB "q" "r1" none (fun _ => none)
        (fun _ _ => none)).primary_intent = "Answer the query directly" ∧
      (research_decomposition_pipeline emptyDB "q" "r1" none (fun _ => none)
        (fun _ _ => none)).relationship = "parallel" ∧
      (research_decomposition_pipeline emptyDB "q" "r1" none (fun _ => none)
        (fun _ _ => none)).difficulty_level = "moderate" ∧
      ∃ s ∈ (research_decomposition_pipeline emptyDB "q" "r1" none (fun _ => none)
          (fun _ _ => none)).db.sub_questions,
        s.research_run_id = "r1" ∧ s.sub_question = "q" ∧ s.position = 1) := by
  have h := resolver_failure_policy_amended emptyDB "q" "r1" none (fun _ => none)
    (fun _ _ => none) (by decide)
  exact ⟨h.1, h.2.1 (Or.inl rfl), h.2.2 (Or.inl rfl)⟩

/-- C10 witness: runs `A` and `B` of `dbShared` both hold the text
`sq`; the summary cached for run `A`'s row is returned for run `B`'s
evidence as well. -/
theorem summary_shared_across_runs_witness :
    ∃ r, findSubQByText dbShared "sq" = some r ∧ r.sub_question = "sq" ∧
      ∀ s, findSummary dbShared r.id = some s →
        (analyzeSubQuestions cSumm dbShared [("sq", ⟨["uA"], "snA"⟩)]).2 =
          [("sq", ⟨s.summary_json, ["uA"]⟩)] ∧
        (analyzeSubQuestions cSumm dbShared [("sq", ⟨["uB"], "snB"⟩)]).2 =
          [("sq", ⟨s.summary_json, ["uB"]⟩)] ∧
        (analyzeSubQuestions cSumm dbShared [("sq", ⟨["uA"], "snA"⟩)]).1 = dbShared :=
  summary_shared_across_runs dbShared "sq" ⟨1, "A", "sq", 1⟩ ⟨2, "B", "sq", 1⟩
    (by decide) (by decide) (by decide) (by decide) cSumm ⟨["uA"], "snA"⟩ ⟨["uB"], "snB"⟩

end Rocket
